import Mathlib

/-!
# CodeLight state-consistency core: a shallow embedding

This file embeds the state-consistency subsystem of the CodeLight editor
(privileged file broker, filesystem watcher, tab/document registry,
file-tree projection, session persistence) as executable Lean definitions,
and proves or refutes the specification claims about it.

Source files embedded:
* `src/main.js` — broker IPC handlers (`validateFileAccess`, `read-file`,
  `write-file`, `read-directory`, `watch-folder`, `unwatch-folder`).
* `src/modules/file-manager.js` — `FileManager` (`refreshFileTree`,
  `openFolder`, `addToRecent`).
* the renderer `CodeLightApp` class — tab registry (`createTab`,
  `activateTab`, `closeTab`, `saveCurrentFile`, `saveAllFiles`,
  `saveSession`, `restoreSession`).

JavaScript built-ins used by the source (`String.prototype.startsWith`,
`String.prototype.includes`, `String.prototype.split`, `Array.prototype.sort`
with a comparator, `String.prototype.localeCompare`, `path.join`) are
modelled explicitly below; `path.resolve` is kept abstract as a function
parameter, since the handlers only ever compare its output against the
stored folder root.  On the target platform `path.sep` is `"/"`.
-/

namespace CodeLight

/-- Model of `String.prototype.startsWith` at the character-list level:
`prefixOfChars p s` is true when `p` is a leading run of `s`. -/
def prefixOfChars : List Char → List Char → Bool
  | [], _ => true
  | _ :: _, [] => false
  | a :: as, b :: bs => a = b && prefixOfChars as bs

/-- Model of `String.prototype.includes` at the character-list level:
`infixOfChars needle hay` is true when `needle` occurs contiguously in `hay`. -/
def infixOfChars (needle : List Char) : List Char → Bool
  | [] => prefixOfChars needle []
  | c :: cs => prefixOfChars needle (c :: cs) || infixOfChars needle cs

/-- Model of the JavaScript built-in `s.startsWith(p)`. -/
def jsStartsWith (s p : String) : Bool :=
  prefixOfChars p.data s.data

/-- Model of the JavaScript built-in `s.includes(sub)`. -/
def jsIncludes (s sub : String) : Bool :=
  infixOfChars sub.data s.data

/-- Helper for the model of `String.prototype.split('/')`: splits a character
list at every `'/'`, accumulating the current segment in reverse. -/
def splitSlashAux : List Char → List Char → List (List Char)
  | acc, [] => [acc.reverse]
  | acc, c :: cs =>
    if c = '/' then acc.reverse :: splitSlashAux [] cs
    else splitSlashAux (c :: acc) cs

/-- Model of the JavaScript built-in `s.split('/')`. -/
def jsSplitSlash (s : String) : List String :=
  (splitSlashAux [] s.data).map String.mk

/-- Model of the JavaScript idiom `s.split('/').pop()` used by the source to
take the last path segment (display name of a file). -/
def jsSplitPop (s : String) : String :=
  (jsSplitSlash s).getLastD ""

/-- Model of `path.join(dir, name)` for a plain entry name, as used by the
`read-directory` handler. -/
def pathJoin (dir name : String) : String :=
  dir ++ "/" ++ name

/-! ## Privileged file broker (`src/main.js`) -/

/-- Embedding of `validateFileAccess` from `src/main.js` (lines 24–34).
`resolve` models the Node built-in `path.resolve`; `allowed` is the
`allowedFolders` entry for the requesting window (`none` when no folder is
open).  Returns the resolved path when access is permitted, `none` when the
request must be denied. -/
def validateFileAccess (resolve : String → String) (allowed : Option String)
    (filePath : String) : Option String :=
  let resolved := resolve filePath
  match allowed with
  | none => some resolved
  | some a =>
    if resolved = a || jsStartsWith resolved (a ++ "/") then some resolved
    else none

/-- A directory entry as produced by `fs.readdir(..., { withFileTypes: true })`:
the entry name and the result of `entry.isDirectory()`. -/
structure DirEntry where
  name : String
  isDirectory : Bool
deriving DecidableEq, Repr

/-- Model of the `fs.promises` operations the broker handlers call.  Each
operation either succeeds or fails with an error message (the `err.message`
the handler reports back). -/
structure NodeFs where
  readFile : String → Except String String
  writeFile : String → String → Except String Unit
  readdir : String → Except String (List DirEntry)

/-- One filesystem operation actually performed by a broker handler; the
handlers are proved to perform none on a denied request. -/
inductive FsOp where
  | readF (path : String)
  | writeF (path content : String)
  | readdir (path : String)
deriving DecidableEq, Repr

/-- Result record of the `read-file` handler
(`{success, content}` / `{success, error}`). -/
inductive ReadResult where
  | ok (content : String)
  | err (msg : String)
deriving DecidableEq, Repr

/-- Result record of the `write-file` handler. -/
inductive WriteResult where
  | ok
  | err (msg : String)
deriving DecidableEq, Repr

/-- An item of the `read-directory` handler's result list:
`{ name, path, isDirectory }`. -/
structure DirItem where
  name : String
  path : String
  isDirectory : Bool
deriving DecidableEq, Repr

/-- Result record of the `read-directory` handler. -/
inductive ListResult where
  | ok (items : List DirItem)
  | err (msg : String)
deriving DecidableEq, Repr

/-- The error message every handler returns on a containment violation. -/
def accessDeniedMsg : String := "Access denied: path outside open folder"

/-- Embedding of the `read-file` IPC handler (`src/main.js` lines 378–389).
Returns the handler's reply together with the filesystem operations it
performed. -/
def readFileHandler (resolve : String → String) (allowed : Option String)
    (fs : NodeFs) (filePath : String) : ReadResult × List FsOp :=
  match validateFileAccess resolve allowed filePath with
  | none => (.err accessDeniedMsg, [])
  | some resolved =>
    match fs.readFile resolved with
    | .ok content => (.ok content, [.readF resolved])
    | .error e => (.err e, [.readF resolved])

/-- Embedding of the `write-file` IPC handler (`src/main.js` lines 391–402). -/
def writeFileHandler (resolve : String → String) (allowed : Option String)
    (fs : NodeFs) (filePath content : String) : WriteResult × List FsOp :=
  match validateFileAccess resolve allowed filePath with
  | none => (.err accessDeniedMsg, [])
  | some resolved =>
    match fs.writeFile resolved content with
    | .ok _ => (.ok, [.writeF resolved content])
    | .error e => (.err e, [.writeF resolved content])

/-- Sort key modelling `String.prototype.localeCompare` under the default
(ICU root) locale, restricted to ASCII: the primary weight is the
case-folded character sequence, and on a primary tie lowercase sorts before
uppercase (tertiary weight 0 for non-uppercase, 1 for uppercase).
So `"a"` precedes `"B"`, unlike code-unit order. -/
def localeKey (s : String) : Lex (List Char × List Nat) :=
  toLex (s.data.map Char.toLower, s.data.map fun c => if c.isUpper then 1 else 0)

/-- Sort key of the comparator in the `read-directory` handler: directories
first (`isDirectory` inverted so directories compare smaller), then the
locale collation of the name. -/
def dirItemKey (it : DirItem) : Lex (Bool × Lex (List Char × List Nat)) :=
  toLex (!it.isDirectory, localeKey it.name)

/-- The order the `read-directory` comparator sorts by. -/
def dirItemLe (a b : DirItem) : Prop := dirItemKey a ≤ dirItemKey b

instance : DecidableRel dirItemLe := fun a b =>
  inferInstanceAs (Decidable (dirItemKey a ≤ dirItemKey b))

instance : IsTotal DirItem dirItemLe :=
  ⟨fun a b => le_total (dirItemKey a) (dirItemKey b)⟩

instance : IsTrans DirItem dirItemLe :=
  ⟨fun _ _ _ hab hbc => le_trans hab hbc⟩

/-- Model of `items.sort(comparator)` in the `read-directory` handler:
`Array.prototype.sort` with a consistent comparator produces a stable sort
by the comparator's order, here rendered as an insertion sort. -/
def sortItems (items : List DirItem) : List DirItem :=
  List.insertionSort dirItemLe items

/-- Embedding of the `read-directory` IPC handler (`src/main.js` lines
404–426): list the directory, attach name / joined absolute path /
directory flag, and sort directories-first then by `localeCompare`. -/
def readDirectoryHandler (resolve : String → String) (allowed : Option String)
    (fs : NodeFs) (dirPath : String) : ListResult × List FsOp :=
  match validateFileAccess resolve allowed dirPath with
  | none => (.err accessDeniedMsg, [])
  | some resolved =>
    match fs.readdir resolved with
    | .ok entries =>
      let items := entries.map fun en =>
        DirItem.mk en.name (pathJoin resolved en.name) en.isDirectory
      (.ok (sortItems items), [.readdir resolved])
    | .error e => (.err e, [.readdir resolved])

/-! ## Filesystem watcher (`watch-folder` handler, `src/main.js` lines 532–587) -/

/-- A raw `fs.watch` callback invocation: arrival time (ms), `eventType`,
and `filename` (which the platform may omit, hence `Option`). -/
structure RawEvent where
  time : Nat
  eventType : String
  filename : Option String
deriving DecidableEq, Repr

/-- A coalesced `folder-changed` message: the time the debounce timer fires
and the payload (`eventType`/`filename` of the last event that set the
timer). -/
structure Notice where
  time : Nat
  eventType : String
  filename : Option String
deriving DecidableEq, Repr

/-- Embedding of the filename filter at the top of the `fs.watch` callback:
`filename && (filename.startsWith('.') || filename.includes('node_modules')
|| filename.includes('.git') || filename.includes('__pycache__'))`.
A `true` result means the event is discarded before the debounce logic. -/
def isIgnoredEvent : Option String → Bool
  | none => false
  | some f =>
    jsStartsWith f "." || jsIncludes f "node_modules" ||
      jsIncludes f ".git" || jsIncludes f "__pycache__"

/-- Embedding of the debounce body of the `fs.watch` callback: an ignored
event returns before touching the timer; an accepted event clears any
pending timer and schedules the notification 300 ms after its own arrival,
with its own payload. -/
def handleRaw (pending : Option Notice) (e : RawEvent) : Option Notice :=
  if isIgnoredEvent e.filename then pending
  else some ⟨e.time + 300, e.eventType, e.filename⟩

/-- Runs the watcher over a chronological list of raw events, starting from
a possibly pending debounce timer, and returns the notifications delivered
(a pending timer fires when its due time arrives at or before the next
event, and after the last event). -/
def runWatcher : Option Notice → List RawEvent → List Notice
  | none, [] => []
  | some n, [] => [n]
  | none, e :: rest => runWatcher (handleRaw none e) rest
  | some n, e :: rest =>
    if n.time ≤ e.time then n :: runWatcher (handleRaw none e) rest
    else runWatcher (handleRaw (some n) e) rest

/-! ## Tab/document registry (renderer `CodeLightApp`) -/

/-- A tab of the registry: `id` (from `Date.now().toString()`), display
`name`, on-disk `path` (`null` for unsaved), the `content` snapshot last
synced with the editor, the live Monaco `model` buffer content, and the
`modified` (dirty) flag. -/
structure Tab where
  id : String
  name : String
  path : Option String
  content : String
  model : String
  modified : Bool
deriving DecidableEq, Repr

/-- The registry state: the ordered tab list and the active tab id. -/
structure Registry where
  tabs : List Tab
  activeTabId : Option String
deriving DecidableEq, Repr

/-- Model of `Array.prototype.findIndex`: index of the first element
satisfying `p`, or `none` (JavaScript's `-1`). -/
def findIndexAux (p : Tab → Bool) : List Tab → Option Nat
  | [] => none
  | t :: ts => if p t then some 0 else (findIndexAux p ts).map (· + 1)

/-- Replaces the tab at index `i` (models JavaScript's in-place mutation of
the tab object found at that index). -/
def replaceAt (r : Registry) (i : Nat) (t : Tab) : Registry :=
  { r with tabs := r.tabs.set i t }

/-- Embedding of `CodeLightApp.activateTab`: a no-op when `id` is absent;
otherwise the currently active tab's `content` snapshot is refreshed from
the live editor buffer (its own model) before `activeTabId` switches.
View-state bookkeeping and DOM rendering are outside the model. -/
def activateTab (r : Registry) (id : String) : Registry :=
  match r.tabs.find? (fun t => t.id = id) with
  | none => r
  | some _ =>
    let r' :=
      match r.activeTabId with
      | none => r
      | some aid =>
        match findIndexAux (fun t => t.id = aid) r.tabs with
        | none => r
        | some i =>
          match r.tabs[i]? with
          | none => r
          | some cur => replaceAt r i { cur with content := cur.model }
    { r' with activeTabId := some id }

/-- Embedding of `CodeLightApp.createTab` with the identifier abstracted:
the source computes `id = Date.now().toString()`; here the caller passes
the id so that both the clock-derived form (see `createTabAtTime`) and the
session-restore loop can reuse one definition.  The new tab is appended and
then activated. -/
def createTab (id : String) (filePath : String) (content : String)
    (isNew : Bool) (r : Registry) : Registry × Tab :=
  let name := if isNew then "untitled" else jsSplitPop filePath
  let tab : Tab :=
    { id := id, name := name, path := if isNew then none else some filePath,
      content := content, model := content, modified := false }
  let r' : Registry := { r with tabs := r.tabs ++ [tab] }
  (activateTab r' id, tab)

/-- `CodeLightApp.createTab` exactly as the source computes the identifier:
`const id = Date.now().toString()`, where `now` is the millisecond clock
value at the moment of the call. -/
def createTabAtTime (now : Nat) (filePath : String) (content : String)
    (isNew : Bool) (r : Registry) : Registry × Tab :=
  createTab (toString now) filePath content isNew r

/-- Embedding of `CodeLightApp.closeTab`: find the tab's index (no-op when
absent), dispose its model and splice it out; when it was active, activate
the tab at the same index clamped to the new length, or clear the active
id when no tabs remain. -/
def closeTab (r : Registry) (id : String) : Registry :=
  match findIndexAux (fun t => t.id = id) r.tabs with
  | none => r
  | some index =>
    let tabs' := r.tabs.eraseIdx index
    if r.activeTabId = some id then
      if tabs'.length > 0 then
        let newIndex := min index (tabs'.length - 1)
        match tabs'[newIndex]? with
        | some nt => activateTab { tabs := tabs', activeTabId := r.activeTabId } nt.id
        | none => { tabs := tabs', activeTabId := none }
      else { tabs := tabs', activeTabId := none }
    else { r with tabs := tabs' }

/-! ## Saving (`CodeLightApp.saveCurrentFile` / `saveAllFiles`) -/

/-- One broker write performed by a save operation: target path, content
written, and whether the `write-file` call reported success. -/
structure WriteRec where
  path : String
  content : String
  succeeded : Bool
deriving DecidableEq, Repr

/-- The collaborators `saveCurrentFile` consults: the save-path dialog
(`none` models a cancelled dialog) and the broker write outcome per
path/content pair. -/
structure SaveEnv where
  dialogResult : Option String
  writeOk : String → String → Bool

/-- The write step shared by both branches of `saveCurrentFile`: writes the
captured editor content to `p`; on success clears `modified` and updates
the `content` snapshot, on failure leaves the tab untouched. -/
def writeStep (env : SaveEnv) (r : Registry) (i : Nat) (t : Tab) (p : String)
    (liveContent : String) : Registry × List WriteRec :=
  if env.writeOk p liveContent then
    (replaceAt r i { t with modified := false, content := liveContent },
      [⟨p, liveContent, true⟩])
  else (r, [⟨p, liveContent, false⟩])

/-- Embedding of `CodeLightApp.saveCurrentFile`: no-op without an active
tab; the content written is `editor.getValue()`, i.e. the active tab's live
model buffer, captured before any dialog.  A pathless tab first obtains a
path from the save dialog (cancel aborts with no write) and has its `path`
and `name` updated before the write; the write outcome then decides whether
`modified`/`content` change. -/
def saveCurrentFile (env : SaveEnv) (r : Registry) : Registry × List WriteRec :=
  match r.activeTabId with
  | none => (r, [])
  | some aid =>
    match findIndexAux (fun t => t.id = aid) r.tabs with
    | none => (r, [])
    | some i =>
      match r.tabs[i]? with
      | none => (r, [])
      | some t =>
        let liveContent := t.model
        match t.path with
        | some p => writeStep env r i t p liveContent
        | none =>
          match env.dialogResult with
          | none => (r, [])
          | some fp =>
            let t' := { t with path := some fp, name := jsSplitPop fp }
            writeStep env (replaceAt r i t') i t' fp liveContent

/-- Embedding of `CodeLightApp.saveAllFiles` on a single tab: a dirty tab
with a known path gets its model content written; success clears `modified`
and refreshes the `content` snapshot, failure leaves the tab unchanged;
clean or pathless tabs are skipped. -/
def saveAllStep (writeOk : String → String → Bool) (t : Tab) : Tab × List WriteRec :=
  match t.path with
  | some p =>
    if t.modified then
      if writeOk p t.model then
        ({ t with modified := false, content := t.model }, [⟨p, t.model, true⟩])
      else (t, [⟨p, t.model, false⟩])
    else (t, [])
  | none => (t, [])

/-- Embedding of `CodeLightApp.saveAllFiles`: each tab is processed
independently in list order; one tab's failure does not affect the rest. -/
def saveAllFiles (writeOk : String → String → Bool) (r : Registry) :
    Registry × List WriteRec :=
  ({ r with tabs := r.tabs.map fun t => (saveAllStep writeOk t).1 },
    (r.tabs.map fun t => (saveAllStep writeOk t).2).flatten)

/-! ## Session persistence (`CodeLightApp.saveSession` / `restoreSession`) -/

/-- A persisted tab record: `{path, content, name}` with `content` taken
from the live model buffer. -/
structure SessionTab where
  path : Option String
  content : String
  name : String
deriving DecidableEq, Repr

/-- The persisted session record
`{openFolder, tabs, activeTabPath}`. -/
structure Session where
  openFolder : Option String
  tabs : List SessionTab
  activeTabPath : Option String
deriving DecidableEq, Repr

/-- Embedding of `CodeLightApp.saveSession`: snapshot the open folder, each
tab's `{path, content: model.getValue(), name}`, and the active tab's path
(`undefined` — here `none` — when no active tab, or `null` when the active
tab is unsaved; both are falsy on restore). -/
def saveSession (openFolder : Option String) (r : Registry) : Session :=
  { openFolder := openFolder,
    tabs := r.tabs.map fun t => ⟨t.path, t.model, t.name⟩,
    activeTabPath :=
      match r.activeTabId with
      | none => none
      | some aid => (r.tabs.find? fun t => t.id = aid).bind (·.path) }

/-- The in-place `tab.name = tabData.name` mutation after the restore loop's
`createTab` call: the tab object in hand is the one just appended, i.e. the
last of the list. -/
def setLastName (r : Registry) (nm : String) : Registry :=
  match r.tabs.getLast? with
  | some lt => { r with tabs := r.tabs.dropLast ++ [{ lt with name := nm }] }
  | none => r

/-- The per-record loop body of `restoreSession`: a record with a path is
re-read through the broker (`disk`; a failed read skips the record), a
pathless record is recreated from its persisted content only when that
content is non-empty (`if (tabData.content)` — the empty string is falsy),
and the recreated tab's `name` is then overwritten with the recorded name.
`ids` supplies the identifier for the `k`-th `createTab` call. -/
def restoreTabs (ids : Nat → String) (disk : String → Option String) :
    Nat → Registry → List SessionTab → Registry
  | _, r, [] => r
  | k, r, td :: rest =>
    match td.path with
    | some p =>
      match disk p with
      | some content =>
        restoreTabs ids disk (k + 1) (createTab (ids k) p content false r).1 rest
      | none => restoreTabs ids disk k r rest
    | none =>
      if td.content = "" then restoreTabs ids disk k r rest
      else
        let r' := (createTab (ids k)
          (if td.name = "" then "untitled" else td.name) td.content true r).1
        restoreTabs ids disk (k + 1) (setLastName r' td.name) rest

/-- Embedding of `CodeLightApp.restoreSession` at the registry level: a
fresh secondary window (`isNewWindow`) skips restoration, as does a missing
session record; otherwise tabs are recreated in snapshot order and the tab
first matching `activeTabPath` is re-activated (only when that recorded
path is truthy).  The `openFolder` re-opening concerns the folder session
and watcher, not the (still empty) registry, and is modelled with
`openFolderOp` below. -/
def restoreSession (isNewWindow : Bool) (sess : Option Session)
    (ids : Nat → String) (disk : String → Option String) (r : Registry) :
    Registry :=
  if isNewWindow then r
  else
    match sess with
    | none => r
    | some s =>
      let r₁ := restoreTabs ids disk 0 r s.tabs
      match s.activeTabPath with
      | some p =>
        if p = "" then r₁
        else
          match r₁.tabs.find? (fun t => t.path = some p) with
          | some t => activateTab r₁ t.id
          | none => r₁
      | none => r₁

/-! ## Folder session (`FileManager.openFolder` with the main-process
`set-open-folder` / `watch-folder` / `unwatch-folder` handlers) -/

/-- The broker IPC calls `FileManager.openFolder` issues that touch the
folder/watch state, in order.  (`get-git-status` and `read-directory` calls
made while re-rendering the tree are omitted: they do not affect the
watcher or tab state.) -/
inductive BrokerCall where
  | unwatch
  | setFolder (path : String)
  | watch (path : String)
deriving DecidableEq, Repr

/-- The folder-session state of one window: the renderer's `app.openFolder`
and `FileManager.isWatching`, the main process's `allowedFolders` entry and
the target of its `watchers` entry for this window, plus the tab registry
(whose tabs `openFolder` may close). -/
structure FolderSession where
  openFolder : Option String
  isWatching : Bool
  allowed : Option String
  watched : Option String
  reg : Registry
deriving DecidableEq, Repr

/-- Embedding of `FileManager.openFolder` (file-manager.js lines 104–140)
together with the main-process handlers it invokes: unwatch the previous
folder when one is watched, record the new folder (renderer and
`allowedFolders`), close every tab whose path is null or does not
`startsWith` the new folder path, and finally start the new watch (whose
path validation always passes, the allowed root having just been set to the
same resolved path). -/
def openFolderOp (resolve : String → String) (s : FolderSession)
    (folderPath : String) : FolderSession × List BrokerCall :=
  let s₁ : FolderSession :=
    if s.isWatching then { s with watched := none, isWatching := false } else s
  let calls₁ : List BrokerCall := if s.isWatching then [.unwatch] else []
  let s₂ : FolderSession :=
    { s₁ with openFolder := some folderPath, allowed := some (resolve folderPath) }
  let tabsToClose := s₂.reg.tabs.filter fun t =>
    match t.path with
    | none => true
    | some p => !jsStartsWith p folderPath
  let reg' := tabsToClose.foldl (fun r t => closeTab r t.id) s₂.reg
  let s₃ : FolderSession :=
    { s₂ with reg := reg', watched := some (resolve folderPath), isWatching := true }
  (s₃, calls₁ ++ [.setFolder folderPath, .watch folderPath])

/-! ## File-tree projection re-entrancy (`FileManager.refreshFileTree`) -/

/-- The two guard flags of the file-tree projection:
`_isRendering` and `_pendingRefresh`. -/
structure RenderFlags where
  isRendering : Bool
  pendingRefresh : Bool
deriving DecidableEq, Repr

/-- Embedding of the entry of `FileManager.refreshFileTree`: a request
during an in-progress render only sets `_pendingRefresh`; otherwise the
render body starts.  The second component counts render passes started by
the call (0 or 1). -/
def requestRefresh (s : RenderFlags) : RenderFlags × Nat :=
  if s.isRendering then ({ s with pendingRefresh := true }, 0)
  else ({ s with isRendering := true }, 1)

/-- Embedding of the `finally` block of `refreshFileTree`: the render body
finishes, `_isRendering` clears, and a pending request triggers exactly one
follow-up `refreshFileTree()` call.  The second component counts render
passes started. -/
def completeRender (s : RenderFlags) : RenderFlags × Nat :=
  let s₁ : RenderFlags := { s with isRendering := false }
  if s₁.pendingRefresh then requestRefresh { s₁ with pendingRefresh := false }
  else (s₁, 0)

/-- A burst of `n` refresh requests, with the total number of render passes
they start. -/
def applyRequests : Nat → RenderFlags → RenderFlags × Nat
  | 0, s => (s, 0)
  | n + 1, s =>
    let (s', c) := requestRefresh s
    let (s'', c') := applyRequests n s'
    (s'', c + c')

/-! ## Recent files (`FileManager.addToRecent`) -/

/-- Embedding of `FileManager.addToRecent`: drop existing occurrences of
the path, push it to the front, keep the first 10 entries. -/
def addToRecent (filePath : String) (recent : List String) : List String :=
  (filePath :: recent.filter fun f => f != filePath).take 10

/-! ## C1 — path containment of the broker operations -/

/-- C1: for every path whose canonical resolution is neither the open
folder root nor a descendant of it (not the root and not extending
`root + "/"`), each of `read-file`, `write-file` and `read-directory`
replies Access-Denied and performs no filesystem operation; with no folder
open, the containment check permits any path, each handler performs its one
filesystem operation on the resolved path, and succeeds whenever that
operation does. -/
theorem broker_denies_outside_root (resolve : String → String) (fs : NodeFs)
    (a filePath content : String)
    (hne : resolve filePath ≠ a)
    (hpre : jsStartsWith (resolve filePath) (a ++ "/") = false) :
    (readFileHandler resolve (some a) fs filePath = (.err accessDeniedMsg, []) ∧
     writeFileHandler resolve (some a) fs filePath content = (.err accessDeniedMsg, []) ∧
     readDirectoryHandler resolve (some a) fs filePath = (.err accessDeniedMsg, [])) ∧
    (validateFileAccess resolve none filePath = some (resolve filePath)) ∧
    ((readFileHandler resolve none fs filePath).2 = [FsOp.readF (resolve filePath)] ∧
     (writeFileHandler resolve none fs filePath content).2 =
       [FsOp.writeF (resolve filePath) content] ∧
     (readDirectoryHandler resolve none fs filePath).2 = [FsOp.readdir (resolve filePath)]) ∧
    (∀ c, fs.readFile (resolve filePath) = .ok c →
      (readFileHandler resolve none fs filePath).1 = .ok c) ∧
    (∀ u, fs.writeFile (resolve filePath) content = .ok u →
      (writeFileHandler resolve none fs filePath content).1 = .ok) ∧
    (∀ es, fs.readdir (resolve filePath) = .ok es →
      ∃ items, (readDirectoryHandler resolve none fs filePath).1 = .ok items) := by
  have hval : validateFileAccess resolve (some a) filePath = none := by
    unfold validateFileAccess
    simp [hne, hpre]
  refine ⟨⟨?_, ?_, ?_⟩, rfl, ⟨?_, ?_, ?_⟩, ?_, ?_, ?_⟩
  · unfold readFileHandler; rw [hval]
  · unfold writeFileHandler; rw [hval]
  · unfold readDirectoryHandler; rw [hval]
  · unfold readFileHandler validateFileAccess
    cases h : fs.readFile (resolve filePath) <;> simp [h]
  · unfold writeFileHandler validateFileAccess
    cases h : fs.writeFile (resolve filePath) content <;> simp [h]
  · unfold readDirectoryHandler validateFileAccess
    cases h : fs.readdir (resolve filePath) <;> simp [h]
  · intro c h
    unfold readFileHandler validateFileAccess
    simp [h]
  · intro u h
    unfold writeFileHandler validateFileAccess
    simp [h]
  · intro es h
    unfold readDirectoryHandler validateFileAccess
    simp [h]

/-- A small filesystem used to instantiate the broker theorems. -/
def sampleFs : NodeFs where
  readFile := fun p => if p = "/etc/passwd" then .ok "root:x:0:0" else .error "ENOENT"
  writeFile := fun _ _ => .ok ()
  readdir := fun p =>
    if p = "/d" then .ok [⟨"a", false⟩, ⟨"B", false⟩] else .error "ENOENT"

/-- Witness for C1 at a concrete denied request: folder `/home/u/proj`
open, path `/etc/passwd` requested. -/
theorem broker_denies_outside_root_witness :
    (((fun p : String => p) "/etc/passwd") ≠ "/home/u/proj" ∧
      jsStartsWith ((fun p : String => p) "/etc/passwd") ("/home/u/proj" ++ "/") = false) ∧
    ((readFileHandler (fun p => p) (some "/home/u/proj") sampleFs "/etc/passwd" =
        (.err accessDeniedMsg, []) ∧
      writeFileHandler (fun p => p) (some "/home/u/proj") sampleFs "/etc/passwd" "w" =
        (.err accessDeniedMsg, []) ∧
      readDirectoryHandler (fun p => p) (some "/home/u/proj") sampleFs "/etc/passwd" =
        (.err accessDeniedMsg, [])) ∧
     (validateFileAccess (fun p => p) none "/etc/passwd" =
        some ((fun p : String => p) "/etc/passwd")) ∧
     ((readFileHandler (fun p => p) none sampleFs "/etc/passwd").2 =
        [FsOp.readF ((fun p : String => p) "/etc/passwd")] ∧
      (writeFileHandler (fun p => p) none sampleFs "/etc/passwd" "w").2 =
        [FsOp.writeF ((fun p : String => p) "/etc/passwd") "w"] ∧
      (readDirectoryHandler (fun p => p) none sampleFs "/etc/passwd").2 =
        [FsOp.readdir ((fun p : String => p) "/etc/passwd")]) ∧
     (∀ c, sampleFs.readFile ((fun p : String => p) "/etc/passwd") = .ok c →
       (readFileHandler (fun p => p) none sampleFs "/etc/passwd").1 = .ok c) ∧
     (∀ u, sampleFs.writeFile ((fun p : String => p) "/etc/passwd") "w" = .ok u →
       (writeFileHandler (fun p => p) none sampleFs "/etc/passwd" "w").1 = .ok) ∧
     (∀ es, sampleFs.readdir ((fun p : String => p) "/etc/passwd") = .ok es →
       ∃ items, (readDirectoryHandler (fun p => p) none sampleFs "/etc/passwd").1 =
         .ok items)) :=
  ⟨by decide, broker_denies_outside_root (fun p => p) sampleFs "/home/u/proj"
    "/etc/passwd" "w" (by decide) (by decide)⟩

/-! ## C8 — identifier freshness of `createTab` -/

/-- C8 (code bug): the claim says document creation always assigns a fresh,
process-unique identifier, collision being impossible however quickly
documents are created.  The code computes `id = Date.now().toString()`, so
two `createTab` calls within the same millisecond — e.g. two unsaved tabs
recreated back-to-back by the session-restore loop — receive the same
identifier.  Evaluated here at clock value 1700000000000 for two distinct
documents. -/
theorem createTab_id_collision :
    ((createTabAtTime 1700000000000 "/p/a.txt" "A" false ⟨[], none⟩).2.id =
      (createTabAtTime 1700000000000 "/p/b.txt" "B" false
        (createTabAtTime 1700000000000 "/p/a.txt" "A" false ⟨[], none⟩).1).2.id) ∧
    ((createTabAtTime 1700000000000 "/p/a.txt" "A" false ⟨[], none⟩).2 ≠
      (createTabAtTime 1700000000000 "/p/b.txt" "B" false
        (createTabAtTime 1700000000000 "/p/a.txt" "A" false ⟨[], none⟩).1).2) ∧
    ((createTabAtTime 1700000000000 "/p/b.txt" "B" false
        (createTabAtTime 1700000000000 "/p/a.txt" "A" false ⟨[], none⟩).1).1.tabs.map
      Tab.id = ["1700000000000", "1700000000000"]) := by
  refine ⟨rfl, ?_, rfl⟩
  intro h
  exact absurd (congrArg Tab.name h) (by decide)

/-! ## C9 — re-entrancy of the file-tree refresh -/

/-- Helper for C9: while a render is in progress, a burst of requests starts
no render pass; the only effect of a non-empty burst is to set the pending
flag. -/
theorem applyRequests_during_render (n : Nat) (s : RenderFlags)
    (h : s.isRendering = true) :
    applyRequests n s =
      (if n = 0 then s else { s with pendingRefresh := true }, 0) := by
  induction n generalizing s with
  | zero => rfl
  | succ m ih =>
    have hreq : requestRefresh s = ({ s with pendingRefresh := true }, 0) := by
      simp [requestRefresh, h]
    have ih' := ih { s with pendingRefresh := true } (by simpa using h)
    simp only [applyRequests, hreq, ih']
    cases m <;> simp

/-- C9: at most one render pass runs at a time, a request during a render is
only recorded in the depth-1 pending flag (no immediate execution),
completing a render starts exactly one follow-up pass iff the pending flag
was set, and a burst of `n ≥ 1` requests during a render starts no passes
itself while the completion that follows starts exactly one. -/
theorem fileTree_refresh_coalesced (s : RenderFlags) (n : Nat) :
    (s.isRendering = true →
      requestRefresh s = ({ s with pendingRefresh := true }, 0)) ∧
    ((completeRender s).2 = if s.pendingRefresh then 1 else 0) ∧
    (s.isRendering = true → 1 ≤ n →
      (applyRequests n s).2 = 0 ∧ (completeRender (applyRequests n s).1).2 = 1) := by
  refine ⟨fun h => by simp [requestRefresh, h], ?_, fun h hn => ?_⟩
  · cases hp : s.pendingRefresh <;> simp [completeRender, requestRefresh, hp]
  · have hb := applyRequests_during_render n s h
    have hn0 : ¬ n = 0 := by omega
    rw [hb]
    simp [hn0, completeRender, requestRefresh]

/-- Witness for C9: a render in progress, three requests arriving during
it. -/
theorem fileTree_refresh_coalesced_witness :
    (RenderFlags.isRendering ⟨true, false⟩ = true ∧ 1 ≤ 3) ∧
    ((applyRequests 3 ⟨true, false⟩).2 = 0 ∧
      (completeRender (applyRequests 3 ⟨true, false⟩).1).2 = 1) :=
  ⟨by decide, (fileTree_refresh_coalesced ⟨true, false⟩ 3).2.2 (by decide) (by decide)⟩

/-! ## C10 — the recent-files list -/

/-- Helper for C10: `addToRecent` preserves freedom from duplicates. -/
theorem addToRecent_nodup (filePath : String) (recent : List String)
    (hnd : recent.Nodup) : (addToRecent filePath recent).Nodup := by
  refine (List.take_sublist 10 _).nodup ?_
  refine List.nodup_cons.mpr ⟨?_, hnd.filter _⟩
  intro hmem
  simpa using (List.mem_filter.mp hmem).2

/-- C10: after `addToRecent(filePath)` the list has no duplicates, starts
with `filePath`, and has length at most 10; adding an already-present path
does not grow the list (its length becomes `min length 10`, i.e. stays the
same under the maintained length bound); and any sequence of additions
starting from the empty list keeps the list duplicate-free. -/
theorem addToRecent_invariants (filePath : String) (recent : List String)
    (hnd : recent.Nodup) :
    (addToRecent filePath recent).Nodup ∧
    (addToRecent filePath recent).head? = some filePath ∧
    (addToRecent filePath recent).length ≤ 10 ∧
    (filePath ∈ recent →
      (addToRecent filePath recent).length = min recent.length 10) ∧
    (∀ adds : List String,
      (adds.foldl (fun l p => addToRecent p l) []).Nodup) := by
  refine ⟨addToRecent_nodup filePath recent hnd, ?_, ?_, ?_, ?_⟩
  · simp [addToRecent]
  · simp [addToRecent]
  · intro hmem
    have hlen : (recent.filter (fun f => f != filePath)).length = recent.length - 1 := by
      rw [← List.Nodup.erase_eq_filter hnd, List.length_erase_of_mem hmem]
    have hpos : 1 ≤ recent.length := List.length_pos.mpr (List.ne_nil_of_mem hmem)
    simp only [addToRecent, List.length_take, List.length_cons, hlen]
    omega
  · intro adds
    have general : ∀ (l : List String), l.Nodup →
        (adds.foldl (fun l p => addToRecent p l) l).Nodup := by
      induction adds with
      | nil => intro l hl; simpa using hl
      | cons p rest ih =>
        intro l hl
        exact ih _ (addToRecent_nodup p l hl)
    exact general [] List.nodup_nil

/-- Witness for C10: adding the already-present `"b"` to `["a","b","c"]`. -/
theorem addToRecent_invariants_witness :
    (["a", "b", "c"] : List String).Nodup ∧
    ((addToRecent "b" ["a", "b", "c"]).Nodup ∧
      (addToRecent "b" ["a", "b", "c"]).head? = some "b" ∧
      (addToRecent "b" ["a", "b", "c"]).length ≤ 10 ∧
      ("b" ∈ (["a", "b", "c"] : List String) →
        (addToRecent "b" ["a", "b", "c"]).length = min (["a", "b", "c"] : List String).length 10) ∧
      (∀ adds : List String,
        (adds.foldl (fun l p => addToRecent p l) []).Nodup)) :=
  ⟨by decide, addToRecent_invariants "b" ["a", "b", "c"] (by decide)⟩

/-! ## C6 — the watcher's filename filter -/

/-- The conventional ignore-names the specification refers to:
dependency-cache directory, version-control metadata directory,
bytecode-cache directory. -/
def ignoreNames : List String := ["node_modules", ".git", "__pycache__"]

/-- The filter predicate exactly as the claim words it: discard when the
filename starts with a dot or contains a path segment equal to a
conventional ignore-name. -/
def segmentDiscard : Option String → Bool
  | none => false
  | some f =>
    jsStartsWith f "." || (jsSplitSlash f).any fun seg => ignoreNames.contains seg

/-- Substring occurrence phrased independently of the `includes` model:
`sub` occurs in `s` iff some suffix of `s` starts with it. -/
def hasSubstr (s sub : String) : Bool :=
  (List.range (s.data.length + 1)).any fun i => prefixOfChars sub.data (s.data.drop i)

/-- The amended filter predicate: discard when the filename starts with a
dot or contains a conventional ignore-name as a substring. -/
def substrDiscard : Option String → Bool
  | none => false
  | some f => jsStartsWith f "." || (ignoreNames.any fun nm => hasSubstr f nm)

/-- `includes` agrees with the suffix-based characterization of substring
occurrence. -/
theorem infixOfChars_eq_any (needle hay : List Char) :
    infixOfChars needle hay =
      ((List.range (hay.length + 1)).any fun i => prefixOfChars needle (hay.drop i)) := by
  induction hay with
  | nil =>
    rw [infixOfChars, show List.range ([].length + 1) = [0] from rfl]
    simp
  | cons c cs ih =>
    rw [infixOfChars, List.length_cons, List.range_succ_eq_map]
    simp only [List.any_cons, List.any_map, List.drop_zero]
    rw [ih]
    congr 1

/-- Counterexample for C6: the filename `"a.github"` has no path segment
equal to an ignore-name and does not start with a dot, so the claim says it
is accepted; the code's substring test `filename.includes('.git')` matches
inside `".github"` and discards it, leaving the debounce timer untouched. -/
theorem watcher_filter_segment_counterexample :
    isIgnoredEvent (some "a.github") = true ∧
    segmentDiscard (some "a.github") = false ∧
    handleRaw none ⟨0, "change", some "a.github"⟩ = none := by
  refine ⟨by decide, by decide, ?_⟩
  simp [handleRaw, isIgnoredEvent]
  decide

/-- C6 (amended): a raw event is discarded — leaving any pending debounce
timer untouched — exactly when its filename starts with a dot or contains
one of the conventional ignore-names as a substring (rather than as a whole
path segment); every other event restarts the debounce timer to fire 300 ms
after its own arrival with its own payload. -/
theorem watcher_filter_amended (e : RawEvent) (pending : Option Notice) :
    isIgnoredEvent e.filename = substrDiscard e.filename ∧
    (isIgnoredEvent e.filename = true → handleRaw pending e = pending) ∧
    (isIgnoredEvent e.filename = false →
      handleRaw pending e = some ⟨e.time + 300, e.eventType, e.filename⟩) := by
  refine ⟨?_, fun h => by simp [handleRaw, h], fun h => by simp [handleRaw, h]⟩
  cases hf : e.filename with
  | none => rfl
  | some f =>
    simp only [isIgnoredEvent, substrDiscard, ignoreNames, List.any_cons,
      List.any_nil, hasSubstr, jsIncludes, infixOfChars_eq_any, String.length_data,
      Bool.or_false, Bool.or_assoc]

/-- Witness for C6 at a filtered and an accepted event. -/
theorem watcher_filter_amended_witness :
    (isIgnoredEvent (RawEvent.mk 40 "change" (some "src/app.js")).filename = false) ∧
    (isIgnoredEvent (RawEvent.mk 40 "change" (some "src/app.js")).filename =
      substrDiscard (RawEvent.mk 40 "change" (some "src/app.js")).filename) ∧
    handleRaw none (RawEvent.mk 40 "change" (some "src/app.js")) =
      some ⟨340, "change", some "src/app.js"⟩ :=
  ⟨by decide,
    (watcher_filter_amended (RawEvent.mk 40 "change" (some "src/app.js")) none).1,
    (watcher_filter_amended (RawEvent.mk 40 "change" (some "src/app.js")) none).2.2
      (by decide)⟩

/-! ## C2 — debounce coalescing -/

/-- The chronology relation on consecutive raw events of a burst: time
advances, and the gap stays under the 300 ms debounce window. -/
def burstRel (a b : RawEvent) : Prop := a.time ≤ b.time ∧ b.time < a.time + 300

instance : DecidableRel burstRel := fun a b =>
  inferInstanceAs (Decidable (a.time ≤ b.time ∧ b.time < a.time + 300))

/-- Helper for C2: with a timer pending from accepted event `e0`, a
remaining burst of accepted events each under 300 ms after its predecessor
ends with exactly the final event's notification. -/
theorem runWatcher_pending (es : List RawEvent) (e0 : RawEvent)
    (hacc : ∀ e ∈ es, isIgnoredEvent e.filename = false)
    (hchain : List.Chain' burstRel (e0 :: es)) :
    runWatcher (some ⟨e0.time + 300, e0.eventType, e0.filename⟩) es =
      [⟨(es.getLastD e0).time + 300, (es.getLastD e0).eventType,
        (es.getLastD e0).filename⟩] := by
  induction es generalizing e0 with
  | nil => rfl
  | cons e1 rest ih =>
    have hrel : burstRel e0 e1 := (List.chain'_cons.mp hchain).1
    have hchain' : List.Chain' burstRel (e1 :: rest) := (List.chain'_cons.mp hchain).2
    have hacc1 : isIgnoredEvent e1.filename = false := hacc e1 (by simp)
    have hnofire : ¬ (e0.time + 300 ≤ e1.time) := by
      have := hrel.2
      omega
    rw [List.getLastD_cons]
    show (if e0.time + 300 ≤ e1.time then _ else
      runWatcher (handleRaw (some ⟨e0.time + 300, e0.eventType, e0.filename⟩) e1) rest) = _
    rw [if_neg hnofire]
    rw [show handleRaw (some ⟨e0.time + 300, e0.eventType, e0.filename⟩) e1 =
      some ⟨e1.time + 300, e1.eventType, e1.filename⟩ by simp [handleRaw, hacc1]]
    exact ih e1 (fun e he => hacc e (by simp [he])) hchain'

/-- Helper for C2: in a chronological burst no event is later than the last
one. -/
theorem burst_le_last (es : List RawEvent) (e0 : RawEvent)
    (hchain : List.Chain' burstRel (e0 :: es)) :
    ∀ e ∈ e0 :: es, e.time ≤ (es.getLastD e0).time := by
  induction es generalizing e0 with
  | nil => simp
  | cons e1 rest ih =>
    have hrel : burstRel e0 e1 := (List.chain'_cons.mp hchain).1
    have ih' := ih e1 (List.chain'_cons.mp hchain).2
    intro e he
    rw [List.getLastD_cons]
    rcases List.mem_cons.mp he with he0 | he1
    · exact he0 ▸ le_trans hrel.1 (ih' e1 (by simp))
    · exact ih' e he1

/-- C2: a burst of `N ≥ 1` accepted raw events whose consecutive gaps stay
under 300 ms, starting with no timer pending, yields exactly one
`folder-changed` notification, scheduled 300 ms after the last event of the
burst and carrying that event's type and filename; every event of the
burst precedes the notification (nothing is delivered mid-burst). -/
theorem watcher_debounce_single_notice (e0 : RawEvent) (es : List RawEvent)
    (hacc : ∀ e ∈ e0 :: es, isIgnoredEvent e.filename = false)
    (hchain : List.Chain' burstRel (e0 :: es)) :
    runWatcher none (e0 :: es) =
      [⟨(es.getLastD e0).time + 300, (es.getLastD e0).eventType,
        (es.getLastD e0).filename⟩] ∧
    ∀ e ∈ e0 :: es, e.time < (es.getLastD e0).time + 300 := by
  constructor
  · show runWatcher (handleRaw none e0) es = _
    rw [show handleRaw none e0 = some ⟨e0.time + 300, e0.eventType, e0.filename⟩ by
      simp [handleRaw, hacc e0 (by simp)]]
    exact runWatcher_pending es e0 (fun e he => hacc e (by simp [he])) hchain
  · intro e he
    have := burst_le_last es e0 hchain e he
    omega

/-- Witness for C2: three accepted events at 0 ms, 120 ms and 250 ms produce
the single notification at 550 ms. -/
theorem watcher_debounce_single_notice_witness :
    ((∀ e ∈ [RawEvent.mk 0 "change" (some "x"), RawEvent.mk 120 "change" (some "y"),
        RawEvent.mk 250 "rename" (some "z")], isIgnoredEvent e.filename = false) ∧
      List.Chain' burstRel [RawEvent.mk 0 "change" (some "x"),
        RawEvent.mk 120 "change" (some "y"), RawEvent.mk 250 "rename" (some "z")]) ∧
    (runWatcher none [RawEvent.mk 0 "change" (some "x"),
        RawEvent.mk 120 "change" (some "y"), RawEvent.mk 250 "rename" (some "z")] =
      [⟨550, "rename", some "z"⟩] ∧
      ∀ e ∈ [RawEvent.mk 0 "change" (some "x"), RawEvent.mk 120 "change" (some "y"),
        RawEvent.mk 250 "rename" (some "z")],
        e.time < 550) := by
  refine ⟨⟨by decide, by simp [List.chain'_cons, burstRel]⟩, ?_⟩
  have h := watcher_debounce_single_notice (RawEvent.mk 0 "change" (some "x"))
    [RawEvent.mk 120 "change" (some "y"), RawEvent.mk 250 "rename" (some "z")]
    (by decide) (by simp [List.chain'_cons, burstRel])
  simpa using h

/-! ## C7 — ordering of directory listings -/

/-- The ordering the claim asserts for a listing: directories before files,
ties broken by case-sensitive ordinal (code-unit) comparison of names. -/
def ordinalItemLe (x y : DirItem) : Prop :=
  toLex (!x.isDirectory, x.name.data) ≤ toLex (!y.isDirectory, y.name.data)

instance : DecidableRel ordinalItemLe := fun a b =>
  inferInstanceAs (Decidable (toLex (!a.isDirectory, a.name.data) ≤
    toLex (!b.isDirectory, b.name.data)))

/-- Counterexample for C7: listing a directory holding the files `"a"` and
`"B"`.  Under code-unit comparison `"B"` (0x42) precedes `"a"` (0x61), but
the handler sorts with `localeCompare`, whose locale collation places `"a"`
first; the produced order is therefore not ordinal-sorted. -/
theorem readDirectory_ordinal_counterexample :
    (readDirectoryHandler (fun p => p) none sampleFs "/d").1 =
      .ok [DirItem.mk "a" "/d/a" false, DirItem.mk "B" "/d/B" false] ∧
    ¬ List.Sorted ordinalItemLe
      [DirItem.mk "a" "/d/a" false, DirItem.mk "B" "/d/B" false] := by
  refine ⟨by decide, by decide⟩

/-- C7 (amended): for every directory accepted by the broker, `list`
returns the children each carrying name, joined absolute path and
is-directory flag, ordered directories-first and, within each group, by
`localeCompare` under the host's default locale collation (case-insensitive
primary weight, so `"a"` sorts before `"B"`) — not by case-sensitive
ordinal comparison. -/
theorem readDirectory_sorted_amended (resolve : String → String)
    (allowed : Option String) (fs : NodeFs) (dirPath resolved : String)
    (entries : List DirEntry)
    (hv : validateFileAccess resolve allowed dirPath = some resolved)
    (hr : fs.readdir resolved = .ok entries) :
    ∃ items,
      readDirectoryHandler resolve allowed fs dirPath =
        (.ok items, [.readdir resolved]) ∧
      List.Perm items (entries.map fun en =>
        DirItem.mk en.name (pathJoin resolved en.name) en.isDirectory) ∧
      List.Sorted dirItemLe items ∧
      ∀ it ∈ items, it.path = pathJoin resolved it.name := by
  refine ⟨sortItems (entries.map fun en =>
    DirItem.mk en.name (pathJoin resolved en.name) en.isDirectory), ?_, ?_, ?_, ?_⟩
  · unfold readDirectoryHandler
    rw [hv]
    simp [hr]
  · exact List.perm_insertionSort _ _
  · exact List.sorted_insertionSort _ _
  · intro it hit
    have hmem : it ∈ entries.map fun en =>
        DirItem.mk en.name (pathJoin resolved en.name) en.isDirectory :=
      (List.mem_insertionSort _).mp hit
    obtain ⟨en, -, rfl⟩ := List.mem_map.mp hmem
    rfl

/-- Witness for C7 at the two-file listing of `sampleFs`. -/
theorem readDirectory_sorted_amended_witness :
    (validateFileAccess (fun p => p) none "/d" = some "/d" ∧
      sampleFs.readdir "/d" = .ok [DirEntry.mk "a" false, DirEntry.mk "B" false]) ∧
    (∃ items,
      readDirectoryHandler (fun p => p) none sampleFs "/d" =
        (.ok items, [.readdir "/d"]) ∧
      List.Perm items ([DirEntry.mk "a" false, DirEntry.mk "B" false].map fun en =>
        DirItem.mk en.name (pathJoin "/d" en.name) en.isDirectory) ∧
      List.Sorted dirItemLe items ∧
      ∀ it ∈ items, it.path = pathJoin "/d" it.name) :=
  ⟨⟨rfl, rfl⟩, readDirectory_sorted_amended (fun p => p) none sampleFs "/d" "/d"
    [DirEntry.mk "a" false, DirEntry.mk "B" false] rfl rfl⟩

/-! ## C5 — saving clears the dirty flag exactly on a successful write -/

/-- C5: `saveCurrentFile` writes the active tab's live editor content to its
current path (obtained from the save dialog first when the tab is unsaved;
a cancelled dialog aborts with no write): on success it clears `modified`
and updates the stored `content` snapshot, on failure it leaves both
unchanged; consequently the dirty flag drops from true to false only
together with a successful write of the live content to the tab's current
path.  `saveAllFiles` gives each dirty, path-bearing tab the same
independent treatment. -/
theorem save_clears_dirty_iff_write_succeeds (env : SaveEnv) (r : Registry)
    (aid : String) (i : Nat) (t : Tab)
    (ha : r.activeTabId = some aid)
    (hi : findIndexAux (fun t => t.id = aid) r.tabs = some i)
    (ht : r.tabs[i]? = some t) :
    (∀ p, t.path = some p →
      (env.writeOk p t.model = true →
        saveCurrentFile env r =
          (replaceAt r i { t with modified := false, content := t.model },
            [⟨p, t.model, true⟩])) ∧
      (env.writeOk p t.model = false →
        saveCurrentFile env r = (r, [⟨p, t.model, false⟩]))) ∧
    (t.path = none → env.dialogResult = none → saveCurrentFile env r = (r, [])) ∧
    (∀ fp, t.path = none → env.dialogResult = some fp →
      (env.writeOk fp t.model = true →
        saveCurrentFile env r =
          (replaceAt r i
            { t with path := some fp, name := jsSplitPop fp,
                     modified := false, content := t.model },
            [⟨fp, t.model, true⟩])) ∧
      (env.writeOk fp t.model = false →
        saveCurrentFile env r =
          (replaceAt r i { t with path := some fp, name := jsSplitPop fp },
            [⟨fp, t.model, false⟩]))) ∧
    (∀ t', ((saveCurrentFile env r).1.tabs)[i]? = some t' →
      t.modified = true → t'.modified = false →
      ∃ p, t'.path = some p ∧ (saveCurrentFile env r).2 = [⟨p, t.model, true⟩]) ∧
    (∀ u : Tab, ∀ p, u.path = some p → u.modified = true →
      ((env.writeOk p u.model = true →
        saveAllStep env.writeOk u =
          ({ u with modified := false, content := u.model }, [⟨p, u.model, true⟩])) ∧
      (env.writeOk p u.model = false →
        saveAllStep env.writeOk u = (u, [⟨p, u.model, false⟩])))) ∧
    (∀ u : Tab, u.modified = false ∨ u.path = none →
      saveAllStep env.writeOk u = (u, [])) := by
  have hlt : i < r.tabs.length := by
    rcases List.getElem?_eq_some.mp ht with ⟨h, -⟩
    exact h
  have hset : ∀ x : Tab, (replaceAt r i x).tabs[i]? = some x := fun x =>
    List.getElem?_set_eq_of_lt x hlt
  have hset2 : ∀ x y : Tab, (replaceAt (replaceAt r i x) i y).tabs[i]? = some y := by
    intro x y
    show ((r.tabs.set i x).set i y)[i]? = some y
    exact List.getElem?_set_eq_of_lt y (by simpa using hlt)
  have hmain : saveCurrentFile env r =
      (match t.path with
        | some p => writeStep env r i t p t.model
        | none =>
          match env.dialogResult with
          | none => (r, [])
          | some fp =>
            let t' := { t with path := some fp, name := jsSplitPop fp }
            writeStep env (replaceAt r i t') i t' fp t.model) := by
    unfold saveCurrentFile
    simp only [ha, hi, ht]
  refine ⟨?_, ?_, ?_, ?_, ?_, ?_⟩
  · intro p hp
    constructor
    · intro hw
      rw [hmain, hp]
      simp [writeStep, hw, hp]
    · intro hw
      rw [hmain, hp]
      simp [writeStep, hw]
  · intro hp hd
    rw [hmain, hp, hd]
  · intro fp hp hd
    constructor
    · intro hw
      rw [hmain, hp, hd]
      simp only [writeStep, hw, if_pos]
      unfold replaceAt
      simp [List.set_set]
    · intro hw
      rw [hmain, hp, hd]
      simp [writeStep, hw]
  · intro t' ht' hmod hmod'
    cases hp : t.path with
    | none =>
      cases hd : env.dialogResult with
      | none =>
        rw [hmain, hp, hd] at ht'
        rw [ht] at ht'
        cases ht'
        exact Bool.noConfusion (hmod.symm.trans hmod')
      | some fp =>
        cases hw : env.writeOk fp t.model with
        | false =>
          rw [hmain, hp, hd] at ht'
          simp only [writeStep, hw, Bool.false_eq_true, if_false] at ht'
          rw [hset] at ht'
          cases ht'
          exact Bool.noConfusion (hmod.symm.trans hmod')
        | true =>
          refine ⟨fp, ?_, ?_⟩
          · rw [hmain, hp, hd] at ht'
            simp only [writeStep, hw, if_pos] at ht'
            rw [hset2] at ht'
            cases ht'
            rfl
          · rw [hmain, hp, hd]
            simp [writeStep, hw]
    | some p =>
      cases hw : env.writeOk p t.model with
      | false =>
        rw [hmain, hp] at ht'
        simp only [writeStep, hw, Bool.false_eq_true, if_false] at ht'
        rw [ht] at ht'
        cases ht'
        exact Bool.noConfusion (hmod.symm.trans hmod')
      | true =>
        refine ⟨p, ?_, ?_⟩
        · rw [hmain, hp] at ht'
          simp only [writeStep, hw, if_pos] at ht'
          rw [hset] at ht'
          cases ht'
          exact hp
        · rw [hmain, hp]
          simp [writeStep, hw]
  · intro u p hp hm
    constructor
    · intro hw
      simp [saveAllStep, hp, hm, hw]
    · intro hw
      simp [saveAllStep, hp, hm, hw]
  · intro u hu
    rcases hu with hm | hp
    · cases hpp : u.path <;> simp [saveAllStep, hpp, hm]
    · simp [saveAllStep, hp]

/-! ## C4 — session snapshot / restore round-trip -/

/-- Projection of a tab to the data the round-trip claim speaks about: its
path and its live (model) content. -/
def projPM (t : Tab) : Option String × String := (t.path, t.model)

/-- Setting an index of a list to the value it already holds is the
identity. -/
theorem set_self_of_getElem? {α : Type} (l : List α) :
    ∀ (i : Nat) (a : α), l[i]? = some a → l.set i a = l := by
  induction l with
  | nil => intro i a h; simp at h
  | cons x xs ih =>
    intro i a h
    cases i with
    | zero =>
      simp at h
      simp [h]
    | succ n =>
      simp at h
      simp [ih n a h]

/-- `activateTab` can only refresh the previously active tab's `content`
snapshot from its own model; the path/model projection of the tab list is
untouched. -/
theorem map_projPM_activateTab (r : Registry) (id : String) :
    ((activateTab r id).tabs).map projPM = r.tabs.map projPM := by
  rcases hfind : r.tabs.find? (fun t => t.id = id) with - | w
  · simp [activateTab, hfind]
  · rcases hact : r.activeTabId with - | aid
    · simp [activateTab, hfind, hact]
    · rcases hidx : findIndexAux (fun t => t.id = aid) r.tabs with - | i
      · simp [activateTab, hfind, hact, hidx]
      · rcases hget : r.tabs[i]? with - | cur
        · simp [activateTab, hfind, hact, hidx, hget]
        · have hstep : (activateTab r id).tabs =
              (replaceAt r i { cur with content := cur.model }).tabs := by
            simp [activateTab, hfind, hact, hidx, hget]
          rw [hstep]
          unfold replaceAt
          rw [List.map_set]
          rw [show projPM { cur with content := cur.model } = projPM cur from rfl]
          apply set_self_of_getElem?
          rw [List.getElem?_map, hget]
          rfl

/-- When every tab's snapshot already equals its model, `activateTab`
leaves the tab list unchanged. -/
theorem activateTab_tabs_of_cm (r : Registry) (id : String)
    (hcm : ∀ t ∈ r.tabs, t.content = t.model) :
    (activateTab r id).tabs = r.tabs := by
  rcases hfind : r.tabs.find? (fun t => t.id = id) with - | w
  · simp [activateTab, hfind]
  · rcases hact : r.activeTabId with - | aid
    · simp [activateTab, hfind, hact]
    · rcases hidx : findIndexAux (fun t => t.id = aid) r.tabs with - | i
      · simp [activateTab, hfind, hact, hidx]
      · rcases hget : r.tabs[i]? with - | cur
        · simp [activateTab, hfind, hact, hidx, hget]
        · have hstep : (activateTab r id).tabs =
              (replaceAt r i { cur with content := cur.model }).tabs := by
            simp [activateTab, hfind, hact, hidx, hget]
          rw [hstep]
          have hmem : cur ∈ r.tabs := by
            rcases List.getElem?_eq_some.mp hget with ⟨hlt, rfl⟩
            exact List.getElem_mem hlt
          have heq : ({ cur with content := cur.model } : Tab) = cur := by
            have hc : cur.content = cur.model := hcm cur hmem
            obtain ⟨cid, cname, cpath, ccont, cmod, cflag⟩ := cur
            have hc' : ccont = cmod := hc
            subst hc'
            rfl
          unfold replaceAt
          rw [heq]
          exact set_self_of_getElem? r.tabs i cur hget

/-- `setLastName` only renames; the path/model projection is untouched. -/
theorem map_projPM_setLastName (r : Registry) (nm : String) :
    ((setLastName r nm).tabs).map projPM = r.tabs.map projPM := by
  unfold setLastName
  cases hlast : r.tabs.getLast? with
  | none => rfl
  | some lt =>
    show ((r.tabs.dropLast ++ [{ lt with name := nm }]).map projPM) = _
    conv_rhs => rw [← List.dropLast_append_getLast? lt hlast]
    rw [List.map_append, List.map_append]
    rfl

/-- The path/model projection of a `createTab` call: the new tab is
appended, carrying the requested path (or none) and content. -/
theorem map_projPM_createTab (id fp content : String) (isNew : Bool)
    (r : Registry) :
    (createTab id fp content isNew r).1.tabs.map projPM =
      r.tabs.map projPM ++ [(if isNew then none else some fp, content)] := by
  unfold createTab
  rw [map_projPM_activateTab]
  simp [projPM]

/-- `createTab` preserves the snapshot-equals-model invariant. -/
theorem createTab_cm (id fp content : String) (isNew : Bool) (r : Registry)
    (hcm : ∀ t ∈ r.tabs, t.content = t.model) :
    ∀ t ∈ (createTab id fp content isNew r).1.tabs, t.content = t.model := by
  unfold createTab
  have hcm' : ∀ t ∈ r.tabs ++
      [({ id := id, name := if isNew then "untitled" else jsSplitPop fp,
          path := if isNew then none else some fp, content := content,
          model := content, modified := false } : Tab)], t.content = t.model := by
    intro t ht
    rcases List.mem_append.mp ht with h | h
    · exact hcm t h
    · rcases List.mem_singleton.mp h with rfl
      rfl
  intro t ht
  rw [activateTab_tabs_of_cm _ _ hcm'] at ht
  exact hcm' t ht

/-- `setLastName` preserves the snapshot-equals-model invariant. -/
theorem setLastName_cm (r : Registry) (nm : String)
    (hcm : ∀ t ∈ r.tabs, t.content = t.model) :
    ∀ t ∈ (setLastName r nm).tabs, t.content = t.model := by
  unfold setLastName
  cases hlast : r.tabs.getLast? with
  | none => exact hcm
  | some lt =>
    intro t ht
    rcases List.mem_append.mp ht with h | h
    · exact hcm t ((List.dropLast_sublist r.tabs).subset h)
    · rcases List.mem_singleton.mp h with rfl
      have hmem : lt ∈ r.tabs := by
        rcases List.mem_getLast?_eq_getLast (show lt ∈ r.tabs.getLast? from hlast)
          with ⟨hne, hx⟩
        rw [hx]
        exact List.getLast_mem hne
      exact hcm lt hmem

/-- Unfolding the restore loop at a record whose path reads back
successfully. -/
theorem restoreTabs_cons_path_ok (ids : Nat → String)
    (disk : String → Option String) (td : SessionTab) (rest : List SessionTab)
    (k : Nat) (r : Registry) (p c : String)
    (hp : td.path = some p) (hd : disk p = some c) :
    restoreTabs ids disk k r (td :: rest) =
      restoreTabs ids disk (k + 1) (createTab (ids k) p c false r).1 rest := by
  simp [restoreTabs, hp, hd]

/-- Unfolding the restore loop at a record whose path fails to read: the
record is skipped. -/
theorem restoreTabs_cons_path_fail (ids : Nat → String)
    (disk : String → Option String) (td : SessionTab) (rest : List SessionTab)
    (k : Nat) (r : Registry) (p : String)
    (hp : td.path = some p) (hd : disk p = none) :
    restoreTabs ids disk k r (td :: rest) = restoreTabs ids disk k r rest := by
  simp [restoreTabs, hp, hd]

/-- Unfolding the restore loop at an unsaved record with empty content: the
record is skipped. -/
theorem restoreTabs_cons_unsaved_empty (ids : Nat → String)
    (disk : String → Option String) (td : SessionTab) (rest : List SessionTab)
    (k : Nat) (r : Registry)
    (hp : td.path = none) (hc : td.content = "") :
    restoreTabs ids disk k r (td :: rest) = restoreTabs ids disk k r rest := by
  simp [restoreTabs, hp, hc]

/-- Unfolding the restore loop at an unsaved record with non-empty
content. -/
theorem restoreTabs_cons_unsaved (ids : Nat → String)
    (disk : String → Option String) (td : SessionTab) (rest : List SessionTab)
    (k : Nat) (r : Registry)
    (hp : td.path = none) (hc : ¬ td.content = "") :
    restoreTabs ids disk k r (td :: rest) =
      restoreTabs ids disk (k + 1)
        (setLastName ((createTab (ids k)
          (if td.name = "" then "untitled" else td.name) td.content true r).1)
          td.name) rest := by
  simp [restoreTabs, hp, hc]

/-- The restore loop preserves the snapshot-equals-model invariant. -/
theorem restoreTabs_cm (ids : Nat → String) (disk : String → Option String) :
    ∀ (tds : List SessionTab) (k : Nat) (r : Registry),
    (∀ t ∈ r.tabs, t.content = t.model) →
    ∀ t ∈ (restoreTabs ids disk k r tds).tabs, t.content = t.model := by
  intro tds
  induction tds with
  | nil => intro k r hcm; exact hcm
  | cons td rest ih =>
    intro k r hcm
    rcases hp : td.path with - | p
    · by_cases hc : td.content = ""
      · rw [restoreTabs_cons_unsaved_empty ids disk td rest k r hp hc]
        exact ih k r hcm
      · rw [restoreTabs_cons_unsaved ids disk td rest k r hp hc]
        exact ih (k + 1) _ (setLastName_cm _ _ (createTab_cm _ _ _ _ _ hcm))
    · rcases hd : disk p with - | c
      · rw [restoreTabs_cons_path_fail ids disk td rest k r p hp hd]
        exact ih k r hcm
      · rw [restoreTabs_cons_path_ok ids disk td rest k r p c hp hd]
        exact ih (k + 1) _ (createTab_cm _ _ _ _ _ hcm)

/-- What a session-tab record contributes to the restored registry: a
record with a path contributes the disk content read back through the
broker (nothing when the read fails); a pathless record contributes its
persisted content unless that content is empty. -/
def restoredEntry (disk : String → Option String) (td : SessionTab) :
    Option (Option String × String) :=
  match td.path with
  | some p => (disk p).map fun c => (some p, c)
  | none => if td.content = "" then none else some (none, td.content)

/-- The path/model projection of the restore loop. -/
theorem restoreTabs_proj (ids : Nat → String) (disk : String → Option String) :
    ∀ (tds : List SessionTab) (k : Nat) (r : Registry),
    (restoreTabs ids disk k r tds).tabs.map projPM =
      r.tabs.map projPM ++ tds.filterMap (restoredEntry disk) := by
  intro tds
  induction tds with
  | nil => intro k r; simp [restoreTabs]
  | cons td rest ih =>
    intro k r
    rw [List.filterMap_cons]
    rcases hp : td.path with - | p
    · by_cases hc : td.content = ""
      · rw [restoreTabs_cons_unsaved_empty ids disk td rest k r hp hc, ih]
        simp [restoredEntry, hp, hc]
      · rw [restoreTabs_cons_unsaved ids disk td rest k r hp hc, ih,
          map_projPM_setLastName, map_projPM_createTab]
        simp [restoredEntry, hp, hc]
    · rcases hd : disk p with - | c
      · rw [restoreTabs_cons_path_fail ids disk td rest k r p hp hd, ih]
        simp [restoredEntry, hp, hd]
      · rw [restoreTabs_cons_path_ok ids disk td rest k r p c hp hd, ih,
          map_projPM_createTab]
        simp [restoredEntry, hp, hd]

/-- Counterexample for C4: a registry holding a single unsaved document
with empty content.  `restoreSession` recreates a pathless record only when
its persisted content is truthy (`if (tabData.content)`), so the empty
unsaved document is dropped: the restored registry is empty while the
original had one open (null) path. -/
theorem session_restore_drops_empty_unsaved :
    (restoreSession false
        (some (saveSession none ⟨[⟨"1", "untitled", none, "", "", false⟩], some "1"⟩))
        (fun k => toString k) (fun _ => none) ⟨[], none⟩).tabs = [] ∧
    (⟨[⟨"1", "untitled", none, "", "", false⟩], some "1"⟩ : Registry).tabs.map Tab.path =
      [none] ∧
    ¬ List.Perm
      ((restoreSession false
          (some (saveSession none ⟨[⟨"1", "untitled", none, "", "", false⟩], some "1"⟩))
          (fun k => toString k) (fun _ => none) ⟨[], none⟩).tabs.map Tab.path)
      ((⟨[⟨"1", "untitled", none, "", "", false⟩], some "1"⟩ : Registry).tabs.map Tab.path) := by
  refine ⟨rfl, rfl, ?_⟩
  intro h
  have hlen := h.length_eq
  rw [show (restoreSession false
      (some (saveSession none ⟨[⟨"1", "untitled", none, "", "", false⟩], some "1"⟩))
      (fun k => toString k) (fun _ => none) ⟨[], none⟩).tabs = ([] : List Tab)
    from rfl] at hlen
  simp at hlen

/-- C4 (amended): restoring a snapshot into a fresh registry reproduces, in
order, one document per snapshotted document that either has a path whose
broker read succeeds (reopened with the disk content) or is unsaved with
non-empty content (recreated with identical in-memory content); unsaved
documents with empty content are dropped.  When the previously active
document had a (non-empty) path and every snapshotted path is readable, the
document carrying that path is re-activated. -/
theorem session_roundtrip_amended (r : Registry) (folder : Option String)
    (ids : Nat → String) (disk : String → Option String)
    (hdisk : ∀ t ∈ r.tabs, Option.all (fun p => (disk p).isSome) t.path = true) :
    ((restoreSession false (some (saveSession folder r)) ids disk ⟨[], none⟩).tabs.map
        projPM =
      r.tabs.filterMap fun t =>
        match t.path with
        | some p => (disk p).map fun c => (some p, c)
        | none => if t.model = "" then none else some (none, t.model)) ∧
    (∀ aid t₀ p, r.activeTabId = some aid →
      r.tabs.find? (fun t => t.id = aid) = some t₀ → t₀.path = some p → p ≠ "" →
      ∃ t', (restoreSession false (some (saveSession folder r)) ids disk
          ⟨[], none⟩).activeTabId = some t'.id ∧
        t' ∈ (restoreSession false (some (saveSession folder r)) ids disk
          ⟨[], none⟩).tabs ∧ t'.path = some p) := by
  set sess := saveSession folder r with hsess
  set r₁ := restoreTabs ids disk 0 ⟨[], none⟩ sess.tabs with hr₁
  have hcm₁ : ∀ t ∈ r₁.tabs, t.content = t.model := by
    rw [hr₁]
    exact restoreTabs_cm ids disk sess.tabs 0 ⟨[], none⟩ (by intro t ht; cases ht)
  have hmap₁ : r₁.tabs.map projPM =
      r.tabs.filterMap fun t =>
        match t.path with
        | some p => (disk p).map fun c => (some p, c)
        | none => if t.model = "" then none else some (none, t.model) := by
    rw [hr₁]
    rw [restoreTabs_proj ids disk sess.tabs 0 ⟨[], none⟩]
    rw [show (⟨[], none⟩ : Registry).tabs.map projPM = [] from rfl, List.nil_append]
    show (r.tabs.map fun t => SessionTab.mk t.path t.model t.name).filterMap
      (restoredEntry disk) = _
    rw [List.filterMap_map]
    rfl
  have htabs : ∀ res, restoreSession false (some sess) ids disk ⟨[], none⟩ = res →
      res.tabs = r₁.tabs := by
    intro res hres
    rw [← hres]
    show (match sess.activeTabPath with
          | some p =>
            if p = "" then r₁
            else
              match r₁.tabs.find? (fun (t : Tab) => t.path = some p) with
              | some t => activateTab r₁ t.id
              | none => r₁
          | none => r₁).tabs = r₁.tabs
    rcases hap : sess.activeTabPath with - | q
    · rfl
    · by_cases hqe : q = ""
      · simp [hqe]
      · simp only [if_neg hqe]
        rcases hfind : r₁.tabs.find? (fun (t : Tab) => t.path = some q) with - | t
        · simp only [hfind]
        · simp only [hfind]
          exact activateTab_tabs_of_cm r₁ t.id hcm₁
  constructor
  · rw [htabs _ rfl]
    exact hmap₁
  · intro aid t₀ p ha hfind₀ hp hpe
    have hmem₀ : t₀ ∈ r.tabs := List.mem_of_find?_eq_some hfind₀
    have hsome : (disk p).isSome = true := by
      have hall := hdisk t₀ hmem₀
      rw [hp] at hall
      simpa [Option.all] using hall
    obtain ⟨c, hc⟩ := Option.isSome_iff_exists.mp hsome
    have hap : sess.activeTabPath = some p := by
      show (match r.activeTabId with
            | none => none
            | some a => (r.tabs.find? fun t => t.id = a).bind fun t => t.path) = some p
      rw [ha]
      simp [hfind₀, hp]
    have hin : (some p, c) ∈ r₁.tabs.map projPM := by
      rw [hmap₁]
      refine List.mem_filterMap.mpr ⟨t₀, hmem₀, ?_⟩
      simp [hp, hc]
    obtain ⟨t₁, hmem₁, hproj₁⟩ := List.mem_map.mp hin
    have hpath₁ : t₁.path = some p := (Prod.ext_iff.mp hproj₁).1
    have hfs : (r₁.tabs.find? fun t => t.path = some p).isSome := by
      refine List.find?_isSome.mpr ⟨t₁, hmem₁, ?_⟩
      simp [hpath₁]
    obtain ⟨t₂, hfind₂⟩ := Option.isSome_iff_exists.mp hfs
    have hpath₂ : t₂.path = some p := by simpa using List.find?_some hfind₂
    have hmem₂ : t₂ ∈ r₁.tabs := List.mem_of_find?_eq_some hfind₂
    have hres : restoreSession false (some sess) ids disk ⟨[], none⟩ =
        activateTab r₁ t₂.id := by
      show (match sess.activeTabPath with
            | some q =>
              if q = "" then r₁
              else
                match r₁.tabs.find? (fun (t : Tab) => t.path = some q) with
                | some t => activateTab r₁ t.id
                | none => r₁
            | none => r₁) = activateTab r₁ t₂.id
      rw [hap]
      simp only [if_neg hpe]
      simp only [hfind₂]
    have hfid : (r₁.tabs.find? fun t => t.id = t₂.id).isSome :=
      List.find?_isSome.mpr ⟨t₂, hmem₂, by simp⟩
    obtain ⟨w, hw⟩ := Option.isSome_iff_exists.mp hfid
    have hact : (activateTab r₁ t₂.id).activeTabId = some t₂.id := by
      simp [activateTab, hw]
    refine ⟨t₂, ?_, ?_, hpath₂⟩
    · rw [hres]
      exact hact
    · rw [hres, activateTab_tabs_of_cm r₁ t₂.id hcm₁]
      exact hmem₂

/-! ## C3 — folder switching: single watch, tab closure -/

/-- `findIndexAux` finds nothing exactly when no element satisfies the
predicate. -/
theorem findIndexAux_eq_none_iff (p : Tab → Bool) (l : List Tab) :
    findIndexAux p l = none ↔ ∀ t ∈ l, p t = false := by
  induction l with
  | nil => simp [findIndexAux]
  | cons x xs ih =>
    by_cases hx : p x
    · simp [findIndexAux, hx]
    · rw [findIndexAux, if_neg hx]
      constructor
      · intro h t ht
        rcases List.mem_cons.mp ht with rfl | hmem
        · simpa using hx
        · refine ih.mp ?_ t hmem
          cases hrec : findIndexAux p xs
          · rfl
          · rw [hrec] at h
            simp at h
      · intro h
        rw [ih.mpr fun t ht => h t (List.mem_cons.mpr (Or.inr ht))]
        rfl

/-- Erasing the first index found for a tab id on a duplicate-free list is
the same as filtering that id out. -/
theorem eraseIdx_findIndexAux (id : String) :
    ∀ (l : List Tab), (l.map Tab.id).Nodup →
    ∀ i, findIndexAux (fun t => t.id = id) l = some i →
    l.eraseIdx i = l.filter (fun t => t.id != id) := by
  intro l
  induction l with
  | nil => intro _ i h; simp [findIndexAux] at h
  | cons x xs ih =>
    intro hnd i h
    by_cases hx : x.id = id
    · rw [findIndexAux, if_pos (by simp [hx])] at h
      cases h
      have hnotin : x.id ∉ xs.map Tab.id := (List.nodup_cons.mp (by simpa using hnd)).1
      have hxs : ∀ t ∈ xs, (t.id != id) = true := by
        intro t ht
        have : t.id ≠ id := by
          intro hbad
          exact hnotin (hx ▸ hbad ▸ List.mem_map.mpr ⟨t, ht, rfl⟩)
        simpa using this
      rw [show (x :: xs).eraseIdx 0 = xs from rfl]
      rw [List.filter_cons, show (x.id != id) = false by simp [hx]]
      rw [List.filter_eq_self.mpr hxs]
      simp
    · rw [findIndexAux, if_neg (by simp [hx])] at h
      rcases hrec : findIndexAux (fun t => t.id = id) xs with - | j
      · rw [hrec] at h
        cases h
      · rw [hrec] at h
        have hi : i = j + 1 := (Option.some_inj.mp h).symm
        subst hi
        rw [show (x :: xs).eraseIdx (j + 1) = x :: xs.eraseIdx j from rfl]
        rw [ih (List.nodup_cons.mp (by simpa using hnd)).2 j hrec]
        rw [List.filter_cons, show (x.id != id) = true by simp [hx]]
        rfl

/-- `activateTab` leaves the tab list unchanged when the currently active
id no longer occurs in the list (the content-sync lookup fails). -/
theorem activateTab_tabs_of_idx_none (r : Registry) (nid : String)
    (h : ∀ aid, r.activeTabId = some aid →
      findIndexAux (fun t => t.id = aid) r.tabs = none) :
    (activateTab r nid).tabs = r.tabs := by
  rcases hfind : r.tabs.find? (fun t => t.id = nid) with - | w
  · simp [activateTab, hfind]
  · rcases hact : r.activeTabId with - | aid
    · simp [activateTab, hfind, hact]
    · simp [activateTab, hfind, hact, h aid hact]

/-- On a registry with duplicate-free tab ids, `closeTab` removes exactly
the tabs carrying the requested id. -/
theorem closeTab_tabs (r : Registry) (id : String)
    (hnd : (r.tabs.map Tab.id).Nodup) :
    (closeTab r id).tabs = r.tabs.filter (fun t => t.id != id) := by
  rcases hfi : findIndexAux (fun t => t.id = id) r.tabs with - | i
  · have hall : ∀ t ∈ r.tabs, (t.id != id) = true := by
      intro t ht
      have := (findIndexAux_eq_none_iff _ _).mp hfi t ht
      simpa using this
    rw [show closeTab r id = r by simp [closeTab, hfi]]
    rw [List.filter_eq_self.mpr hall]
  · have herase : r.tabs.eraseIdx i = r.tabs.filter (fun t => t.id != id) :=
      eraseIdx_findIndexAux id r.tabs hnd i hfi
    have hnone : findIndexAux (fun t => t.id = id) (r.tabs.eraseIdx i) = none := by
      rw [herase]
      refine (findIndexAux_eq_none_iff _ _).mpr ?_
      intro t ht
      have := (List.mem_filter.mp ht).2
      simpa using this
    by_cases hact : r.activeTabId = some id
    · by_cases hlen : (r.tabs.eraseIdx i).length > 0
      · rcases hget : (r.tabs.eraseIdx i)[min i ((r.tabs.eraseIdx i).length - 1)]?
          with - | nt
        · rw [show (closeTab r id).tabs = r.tabs.eraseIdx i by
            simp [closeTab, hfi, hact, hlen, hget]]
          exact herase
        · have hstep : (closeTab r id).tabs =
              (activateTab ⟨r.tabs.eraseIdx i, r.activeTabId⟩ nt.id).tabs := by
            simp [closeTab, hfi, hact, hlen, hget]
          rw [hstep]
          rw [activateTab_tabs_of_idx_none]
          · exact herase
          · intro aid haid
            have : aid = id := by
              rw [hact] at haid
              exact (Option.some_inj.mp haid).symm
            rw [this]
            exact hnone
      · rw [show (closeTab r id).tabs = r.tabs.eraseIdx i by
          simp [closeTab, hfi, hact, hlen]]
        exact herase
    · rw [show (closeTab r id).tabs = r.tabs.eraseIdx i by
        simp [closeTab, hfi, hact]]
      exact herase

/-- Folding `closeTab` over a list of tabs removes exactly the tabs whose
id occurs in that list (tab ids being duplicate-free). -/
theorem foldClose_tabs :
    ∀ (L : List Tab) (r : Registry), (r.tabs.map Tab.id).Nodup →
    (L.foldl (fun acc t => closeTab acc t.id) r).tabs =
      r.tabs.filter (fun t => !decide (t.id ∈ L.map Tab.id)) := by
  intro L
  induction L with
  | nil =>
    intro r _
    simp
  | cons t0 L' ih =>
    intro r hnd
    rw [List.foldl_cons]
    have h0 : (closeTab r t0.id).tabs = r.tabs.filter (fun t => t.id != t0.id) :=
      closeTab_tabs r t0.id hnd
    have hnd' : ((closeTab r t0.id).tabs.map Tab.id).Nodup := by
      rw [h0]
      exact ((List.filter_sublist _).map Tab.id).nodup hnd
    rw [ih (closeTab r t0.id) hnd', h0, List.filter_filter]
    refine List.filter_congr ?_
    intro t ht
    by_cases h1 : t.id = t0.id <;> by_cases h2 : t.id ∈ L'.map Tab.id <;>
      simp [h1, h2]

/-- Closing, via `closeTab`, every tab flagged by the `openFolder` filter
leaves exactly the tabs whose path is a string extension of the new folder
path. -/
theorem closeOutside_tabs (reg : Registry) (b : String)
    (hnd : (reg.tabs.map Tab.id).Nodup) :
    ((reg.tabs.filter fun t =>
        match t.path with
        | none => true
        | some p => !jsStartsWith p b).foldl (fun acc t => closeTab acc t.id) reg).tabs =
      reg.tabs.filter fun t =>
        match t.path with
        | none => false
        | some p => jsStartsWith p b := by
  rw [foldClose_tabs _ reg hnd]
  refine List.filter_congr ?_
  intro t ht
  have hiff : t.id ∈ (reg.tabs.filter fun t =>
      match t.path with
      | none => true
      | some p => !jsStartsWith p b).map Tab.id ↔
      (match t.path with
        | none => true
        | some p => !jsStartsWith p b) = true := by
    constructor
    · intro hmem
      obtain ⟨u, hu, huid⟩ := List.mem_map.mp hmem
      obtain ⟨humem, hucl⟩ := List.mem_filter.mp hu
      have hut : u = t := List.inj_on_of_nodup_map hnd humem ht huid
      rw [← hut]
      exact hucl
    · intro hcl
      exact List.mem_map.mpr ⟨t, List.mem_filter.mpr ⟨ht, hcl⟩, rfl⟩
  rcases hp : t.path with - | q
  · have hcl : (match t.path with
        | none => true
        | some p => !jsStartsWith p b) = true := by simp [hp]
    simp [hiff.mpr hcl, hp]
  · cases hjs : jsStartsWith q b with
    | false =>
      have hcl : (match t.path with
          | none => true
          | some p => !jsStartsWith p b) = true := by simp [hp, hjs]
      simp [hiff.mpr hcl, hp, hjs]
    | true =>
      have hnotin : t.id ∉ (reg.tabs.filter fun t =>
          match t.path with
          | none => true
          | some p => !jsStartsWith p b).map Tab.id := by
        intro hmem
        have := hiff.mp hmem
        rw [hp] at this
        simp [hjs] at this
      simp [hnotin, hp, hjs]

/-- Counterexample for C3: one open tab at `/ab/f.txt`, then
`openFolder("/a")`.  The path is not under the new root `/a` (it is not
`/a` and does not extend `/a/`), so the claim says the tab is closed; the
code's plain-prefix test `tab.path.startsWith(folderPath)` matches `/ab`
against `/a` and keeps it. -/
theorem openFolder_keeps_sibling_tab :
    ((openFolderOp (fun p => p)
        ⟨none, false, none, none,
          ⟨[⟨"1", "f.txt", some "/ab/f.txt", "x", "x", false⟩], some "1"⟩⟩
        "/a").1.reg.tabs =
      [⟨"1", "f.txt", some "/ab/f.txt", "x", "x", false⟩]) ∧
    ¬ ("/ab/f.txt" = "/a" ∨ jsStartsWith "/ab/f.txt" ("/a" ++ "/") = true) :=
  ⟨rfl, by decide⟩

/-- C3 (amended): opening folder B cancels the previous watch (when one is
active) before the new watch is established, leaves exactly one folder
watched (the new one, with the allowed root set to its resolved path), and
closes every open tab whose path is null or does not have B's path as a
plain string prefix — so a sibling path that merely extends B's name (such
as `/ab/f` when opening `/a`) is kept, not closed. -/
theorem openFolder_switch_amended (resolve : String → String)
    (s : FolderSession) (b : String)
    (hnd : (s.reg.tabs.map Tab.id).Nodup) :
    (openFolderOp resolve s b).1.watched = some (resolve b) ∧
    (openFolderOp resolve s b).1.isWatching = true ∧
    (openFolderOp resolve s b).1.openFolder = some b ∧
    (openFolderOp resolve s b).1.allowed = some (resolve b) ∧
    (openFolderOp resolve s b).2 =
      (if s.isWatching then [BrokerCall.unwatch] else []) ++
        [BrokerCall.setFolder b, BrokerCall.watch b] ∧
    (openFolderOp resolve s b).1.reg.tabs = s.reg.tabs.filter fun t =>
      match t.path with
      | none => false
      | some p => jsStartsWith p b := by
  refine ⟨rfl, rfl, rfl, rfl, rfl, ?_⟩
  cases hw : s.isWatching with
  | false =>
    have hstep : (openFolderOp resolve s b).1.reg =
        (s.reg.tabs.filter fun t =>
          match t.path with
          | none => true
          | some p => !jsStartsWith p b).foldl (fun acc t => closeTab acc t.id) s.reg := by
      simp [openFolderOp, hw]
    rw [hstep]
    exact closeOutside_tabs s.reg b hnd
  | true =>
    have hstep : (openFolderOp resolve s b).1.reg =
        (s.reg.tabs.filter fun t =>
          match t.path with
          | none => true
          | some p => !jsStartsWith p b).foldl (fun acc t => closeTab acc t.id) s.reg := by
      simp [openFolderOp, hw]
    rw [hstep]
    exact closeOutside_tabs s.reg b hnd

/-! ## Concrete instantiations (witnesses) -/

/-- A dirty tab with a path, used to instantiate the save theorem. -/
def c5tab : Tab := ⟨"7", "a.txt", some "/p/a.txt", "old", "new", true⟩

/-- A one-tab registry with `c5tab` active. -/
def c5reg : Registry := ⟨[c5tab], some "7"⟩

/-- Save collaborators whose dialog picks `/q/b.txt` and whose writes all
succeed. -/
def c5env : SaveEnv := ⟨some "/q/b.txt", fun _ _ => true⟩

/-- Witness for C5: saving the dirty active tab `c5tab`. -/
theorem save_clears_dirty_iff_write_succeeds_witness :
    (c5reg.activeTabId = some "7" ∧
      findIndexAux (fun t => t.id = "7") c5reg.tabs = some 0 ∧
      c5reg.tabs[0]? = some c5tab) ∧
    ((∀ p, c5tab.path = some p →
      (c5env.writeOk p c5tab.model = true →
        saveCurrentFile c5env c5reg =
          (replaceAt c5reg 0 { c5tab with modified := false, content := c5tab.model },
            [⟨p, c5tab.model, true⟩])) ∧
      (c5env.writeOk p c5tab.model = false →
        saveCurrentFile c5env c5reg = (c5reg, [⟨p, c5tab.model, false⟩]))) ∧
    (c5tab.path = none → c5env.dialogResult = none →
      saveCurrentFile c5env c5reg = (c5reg, [])) ∧
    (∀ fp, c5tab.path = none → c5env.dialogResult = some fp →
      (c5env.writeOk fp c5tab.model = true →
        saveCurrentFile c5env c5reg =
          (replaceAt c5reg 0
            { c5tab with path := some fp, name := jsSplitPop fp,
                         modified := false, content := c5tab.model },
            [⟨fp, c5tab.model, true⟩])) ∧
      (c5env.writeOk fp c5tab.model = false →
        saveCurrentFile c5env c5reg =
          (replaceAt c5reg 0 { c5tab with path := some fp, name := jsSplitPop fp },
            [⟨fp, c5tab.model, false⟩]))) ∧
    (∀ t', ((saveCurrentFile c5env c5reg).1.tabs)[0]? = some t' →
      c5tab.modified = true → t'.modified = false →
      ∃ p, t'.path = some p ∧
        (saveCurrentFile c5env c5reg).2 = [⟨p, c5tab.model, true⟩]) ∧
    (∀ u : Tab, ∀ p, u.path = some p → u.modified = true →
      ((c5env.writeOk p u.model = true →
        saveAllStep c5env.writeOk u =
          ({ u with modified := false, content := u.model }, [⟨p, u.model, true⟩])) ∧
      (c5env.writeOk p u.model = false →
        saveAllStep c5env.writeOk u = (u, [⟨p, u.model, false⟩])))) ∧
    (∀ u : Tab, u.modified = false ∨ u.path = none →
      saveAllStep c5env.writeOk u = (u, []))) :=
  ⟨⟨rfl, by decide, rfl⟩,
    save_clears_dirty_iff_write_succeeds c5env c5reg "7" 0 c5tab rfl (by decide) rfl⟩

/-- A registry with one saved and one unsaved (non-empty) document, used to
instantiate the round-trip theorem. -/
def c4reg : Registry :=
  ⟨[⟨"1", "a.txt", some "/w/a.txt", "A", "A", false⟩,
    ⟨"2", "notes", none, "draft", "draft", false⟩], some "1"⟩

/-- A disk on which the snapshotted path reads back (with newer content). -/
def c4disk : String → Option String :=
  fun p => if p = "/w/a.txt" then some "A2" else none

/-- Witness for C4: snapshotting and restoring `c4reg`. -/
theorem session_roundtrip_amended_witness :
    (∀ t ∈ c4reg.tabs, Option.all (fun p => (c4disk p).isSome) t.path = true) ∧
    (((restoreSession false (some (saveSession (some "/w") c4reg))
        (fun k => toString k) c4disk ⟨[], none⟩).tabs.map projPM =
      c4reg.tabs.filterMap fun t =>
        match t.path with
        | some p => (c4disk p).map fun c => (some p, c)
        | none => if t.model = "" then none else some (none, t.model)) ∧
    (∀ aid t₀ p, c4reg.activeTabId = some aid →
      c4reg.tabs.find? (fun t => t.id = aid) = some t₀ → t₀.path = some p → p ≠ "" →
      ∃ t', (restoreSession false (some (saveSession (some "/w") c4reg))
          (fun k => toString k) c4disk ⟨[], none⟩).activeTabId = some t'.id ∧
        t' ∈ (restoreSession false (some (saveSession (some "/w") c4reg))
          (fun k => toString k) c4disk ⟨[], none⟩).tabs ∧ t'.path = some p)) :=
  ⟨by decide,
    session_roundtrip_amended c4reg (some "/w") (fun k => toString k) c4disk (by decide)⟩

/-- A folder session watching `/old`, with tabs inside the next folder,
outside it, and unsaved. -/
def c3sess : FolderSession :=
  ⟨some "/old", true, some "/old", some "/old",
    ⟨[⟨"1", "x.txt", some "/a/x.txt", "x", "x", false⟩,
      ⟨"2", "y.txt", some "/b/y.txt", "y", "y", false⟩,
      ⟨"3", "untitled", none, "z", "z", false⟩], some "2"⟩⟩

/-- Witness for C3: switching `c3sess` to folder `/a`. -/
theorem openFolder_switch_amended_witness :
    ((c3sess.reg.tabs.map Tab.id).Nodup) ∧
    ((openFolderOp (fun p => p) c3sess "/a").1.watched = some ((fun p : String => p) "/a") ∧
    (openFolderOp (fun p => p) c3sess "/a").1.isWatching = true ∧
    (openFolderOp (fun p => p) c3sess "/a").1.openFolder = some "/a" ∧
    (openFolderOp (fun p => p) c3sess "/a").1.allowed = some ((fun p : String => p) "/a") ∧
    (openFolderOp (fun p => p) c3sess "/a").2 =
      (if c3sess.isWatching then [BrokerCall.unwatch] else []) ++
        [BrokerCall.setFolder "/a", BrokerCall.watch "/a"] ∧
    (openFolderOp (fun p => p) c3sess "/a").1.reg.tabs = c3sess.reg.tabs.filter fun t =>
      match t.path with
      | none => false
      | some p => jsStartsWith p "/a") :=
  ⟨by decide, openFolder_switch_amended (fun p => p) c3sess "/a" (by decide)⟩

end CodeLight
